import Mathlib

/-!
Shallow embedding of `web3-reg-agent/main.py` (policy crawler with keyword
link filtering, text normalisation, and vector / lexical ranking).

Python strings are modelled as `List Char`; external collaborators
(HTTP fetch, HTML parsing, relative-URL resolution, the Jina embedding
provider) are modelled as explicit function parameters; Python exceptions
are modelled with `Except`; float arithmetic is modelled over `ℝ`.
-/

namespace RegAgent

/-- Python `str`, modelled as its list of characters. -/
abbrev Str := List Char

/-- Coerce a Lean string literal into the `Str` model. -/
def str (s : String) : Str := s.data

/-- Whitespace characters recognised by Python's `\s` and `str.strip`
(restricted to the ASCII range, which is all the program relies on). -/
def pyIsSpace (c : Char) : Bool :=
  c == ' ' || c == '\t' || c == '\n' || c == '\r' || c == '\x0b' || c == '\x0c'

/-- Python `str.lower`, character by character (ASCII case folding). -/
def pyLower (s : Str) : Str := s.map Char.toLower

/-- Python `str.strip`: drop leading and trailing whitespace. -/
def pyStrip (s : Str) : Str :=
  ((s.dropWhile pyIsSpace).reverse.dropWhile pyIsSpace).reverse

/-- The effect of `re.sub(r"\s+", " ", text)`: every maximal run of
whitespace is replaced by a single space. -/
def collapseWS : Str → Str
  | [] => []
  | [c] => if pyIsSpace c then [' '] else [c]
  | c :: d :: rest =>
    if pyIsSpace c then
      if pyIsSpace d then collapseWS (d :: rest)
      else ' ' :: collapseWS (d :: rest)
    else c :: collapseWS (d :: rest)

/-- `clean_text` from `main.py`: `re.sub(r"\s+", " ", text).strip()`. -/
def clean_text (text : Str) : Str := pyStrip (collapseWS text)

/-- One character of `\d` in the date regex (ASCII digits). -/
def isDig (c : Char) : Bool := c.isDigit

/-- A separator character of the date regex: `-` or `/`. -/
def isSep (c : Char) : Bool := c == '-' || c == '/'

/-- Whether a string exactly matches the date regex of `extract_date`:
four digits, a separator (`-` or `/`), two digits, a separator, two
digits. Note the two separators are matched independently. -/
def dateMatch : Str → Bool
  | [y1, y2, y3, y4, s1, m1, m2, s2, d1, d2] =>
    isDig y1 && isDig y2 && isDig y3 && isDig y4 && isSep s1 &&
    isDig m1 && isDig m2 && isSep s2 && isDig d1 && isDig d2
  | _ => false

/-- The `re.search` call of `extract_date`: the pattern has fixed
width 10, so the leftmost match is the 10-character window at the first
position where the window matches. -/
def findDate : Str → Option Str
  | [] => none
  | c :: cs =>
    if dateMatch ((c :: cs).take 10) then some ((c :: cs).take 10)
    else findDate cs

/-- `extract_date` from `main.py`: first date-like substring, or `""`. -/
def extract_date (text : Str) : Str := (findDate text).getD []

/-- The date pattern as the specification words it: four digits, a
separator (`-` or `/`), two digits, THE SAME separator, two digits. -/
def dateMatchSpec : Str → Bool
  | [y1, y2, y3, y4, s1, m1, m2, s2, d1, d2] =>
    isDig y1 && isDig y2 && isDig y3 && isDig y4 && isSep s1 &&
    isDig m1 && isDig m2 && s1 == s2 && isDig d1 && isDig d2
  | _ => false

/-- An anchor element as exposed by the HTML parse capability:
its visible text (`a.get_text()`) and its `href` attribute,
`none` when the attribute is absent. -/
structure Anchor where
  text : Str
  href : Option Str
deriving DecidableEq

/-- A filtered link `{"title": ..., "url": ...}`. -/
structure Link where
  title : Str
  url : Str
deriving DecidableEq

/-- A policy record as assembled by `fetch_and_extract`. The dynamic
`"embedding"` key is modelled as an `Option`: `none` while the key is
absent, `some v` once `build_embeddings` has stored `v`. -/
structure Record where
  title : Str
  url : Str
  source : Str
  raw_text : Str
  clean_text : Str
  date : Str
  embedding : Option (List ℝ)

/-- A record together with the transient `"score"` key attached by
`search_with_jina` (a float score). -/
structure ScoredR where
  record : Record
  score : ℝ

/-- A record together with the transient `"score"` key attached by
`keyword_fallback` (a `str.count` result, a nonnegative integer). -/
structure ScoredK where
  record : Record
  score : Nat

/-- A fetched-and-parsed HTML page, as exposed by the external fetch and
parse capabilities: its anchors and its visible text
(`soup.get_text(separator="\n")`). -/
structure Html where
  anchors : List Anchor
  text : Str

/-- `extract_links_by_keywords` from `main.py`. Relative-URL resolution
(`urllib.parse.urljoin`) is an external capability passed in as `urljoin`. -/
def extract_links_by_keywords (urljoin : Str → Str → Str) (anchors : List Anchor)
    (base_url : Str) (keywords : List Str) : List Link :=
  match anchors with
  | [] => []
  | a :: rest =>
    let title := pyStrip a.text
    match a.href with
    | none => extract_links_by_keywords urljoin rest base_url keywords
    | some href =>
      if href = [] then extract_links_by_keywords urljoin rest base_url keywords
      else
        let full_url := urljoin base_url href
        let text_to_check := pyLower (title ++ ' ' :: full_url)
        if keywords.any (fun kw => decide (pyLower kw <:+: text_to_check)) then
          ⟨title, full_url⟩ :: extract_links_by_keywords urljoin rest base_url keywords
        else
          extract_links_by_keywords urljoin rest base_url keywords

/-- The inner loop of `fetch_and_extract`: fetch each filtered link's
page; on fetch failure skip that link, on success append a record.
`fetch` models `fetch_html` composed with HTML parsing; a Python
exception is an `Except.error`. -/
def fetchDetails {ε : Type} (fetch : Str → Except ε Html) (base_url : Str) :
    List Link → List Record
  | [] => []
  | link :: rest =>
    match fetch link.url with
    | .error _ => fetchDetails fetch base_url rest
    | .ok page =>
      let text := page.text
      let cleaned := clean_text text
      { title := link.title
        url := link.url
        source := base_url
        raw_text := text
        clean_text := cleaned
        date := extract_date cleaned
        embedding := none } :: fetchDetails fetch base_url rest

/-- `fetch_and_extract` from `main.py`: walk the entry paths; on entry
fetch failure skip that path; otherwise filter the entry page's links by
keyword and fetch each detail page. -/
def fetch_and_extract {ε : Type} (fetch : Str → Except ε Html)
    (urljoin : Str → Str → Str) (base_url : Str) (entry_paths : List Str)
    (keywords : List Str) : List Record :=
  match entry_paths with
  | [] => []
  | path :: rest =>
    let entry_url := urljoin base_url path
    match fetch entry_url with
    | .error _ => fetch_and_extract fetch urljoin base_url rest keywords
    | .ok page =>
      fetchDetails fetch base_url (extract_links_by_keywords urljoin page.anchors base_url keywords)
        ++ fetch_and_extract fetch urljoin base_url rest keywords

/-- Python slicing `l[:k]` for an arbitrary integer `k`: a nonnegative
`k` keeps the first `k` elements; a negative `k` drops the last `-k`. -/
def pyTake {α : Type} (l : List α) (k : Int) : List α :=
  if 0 ≤ k then l.take k.toNat else l.take (l.length - (-k).toNat)

/-- Fuel-driven scanner for `str.count`: count non-overlapping,
leftmost-first occurrences of the nonempty pattern `pat`. The fuel is
an upper bound on the haystack length, so recursion is structural. -/
def countOcc (pat : Str) : Nat → Str → Nat
  | _, [] => 0
  | 0, _ :: _ => 0
  | fuel + 1, c :: cs =>
    if pat.isPrefixOf (c :: cs) then countOcc pat fuel ((c :: cs).drop pat.length) + 1
    else countOcc pat fuel cs

/-- Python `hay.count(pat)`: the number of non-overlapping occurrences
of `pat` in `hay`; for the empty pattern Python returns `len(hay) + 1`. -/
def pyCount (hay pat : Str) : Nat :=
  if pat = [] then hay.length + 1 else countOcc pat hay.length hay

/-- `sum(a * b for a, b in zip(vec_a, vec_b))` from `cosine_similarity`. -/
def dotProd (vec_a vec_b : List ℝ) : ℝ :=
  ((vec_a.zip vec_b).map (fun p => p.1 * p.2)).sum

/-- `sum(a * a for a in vec)` from `cosine_similarity`. -/
def sumSq (vec : List ℝ) : ℝ := (vec.map (fun a => a * a)).sum

/-- `sum(a * a for a in vec) ** 0.5`: the Euclidean norm computed by
`cosine_similarity` (float `** 0.5` modelled as the real square root). -/
noncomputable def vecNorm (vec : List ℝ) : ℝ := Real.sqrt (sumSq vec)

/-- `cosine_similarity` from `main.py`, over `ℝ`, with the two guards of
the code: empty operand, then zero norm. -/
noncomputable def cosine_similarity (vec_a vec_b : List ℝ) : ℝ :=
  if vec_a = [] ∨ vec_b = [] then 0
  else if vecNorm vec_a = 0 ∨ vecNorm vec_b = 0 then 0
  else dotProd vec_a vec_b / (vecNorm vec_a * vecNorm vec_b)

/-- `build_embeddings` from `main.py` (the post-state of its in-place
update): for each record try `embed` on its clean text; store the vector
on success and the empty list on failure. `embed` models
`embed_with_jina`, whose failures are `Except.error`. -/
def build_embeddings {ε : Type} (embed : Str → Except ε (List ℝ)) :
    List Record → List Record
  | [] => []
  | rec :: rest =>
    (match embed rec.clean_text with
      | .ok v => { rec with embedding := some v }
      | .error _ => { rec with embedding := some [] })
    :: build_embeddings embed rest

/-- The model of `scored.sort(key=lambda x: x["score"], reverse=True)`:
Python's sort is stable, and with `reverse=True` it places `a` before
`b` exactly when `b`'s key is at most `a`'s key, breaking ties by input
position — which is the stable merge sort under that comparison. -/
def sortDesc {α β : Type} [LinearOrder β] (key : α → β) (l : List α) : List α :=
  l.mergeSort (fun a b => decide (key b ≤ key a))

/-- `search_with_jina` from `main.py`: embed the query (failures
propagate — the call is not guarded), score every record by cosine
similarity against `rec.get("embedding", [])`, sort stably by descending
score, return the first `top_k`. -/
noncomputable def search_with_jina {ε : Type} (embed : Str → Except ε (List ℝ))
    (records : List Record) (query : Str) (top_k : Int) :
    Except ε (List ScoredR) :=
  match embed query with
  | .error e => .error e
  | .ok query_vec =>
    let scored : List ScoredR := records.map
      (fun rec => ⟨rec, cosine_similarity query_vec (rec.embedding.getD [])⟩)
    .ok (pyTake (sortDesc ScoredR.score scored) top_k)

/-- `keyword_fallback` from `main.py`: score each record by
`clean_text.lower().count(query.lower())`, sort stably by descending
score, return the first `top_k`. -/
def keyword_fallback (records : List Record) (query : Str) (top_k : Int) :
    List ScoredK :=
  let q := pyLower query
  let scored : List ScoredK :=
    records.map (fun rec => ⟨rec, pyCount (pyLower rec.clean_text) q⟩)
  pyTake (sortDesc ScoredK.score scored) top_k

/-- The Link Filter as the specification words it: keep, in anchor
encounter order and without deduplication, exactly the anchors with a
present, non-empty `href` whose stripped title concatenated with the
resolved URL via a single space, lowercased, contains some lowercased
keyword as a substring. -/
def linkFilterSpec (urljoin : Str → Str → Str) (anchors : List Anchor)
    (base_url : Str) (keywords : List Str) : List Link :=
  anchors.filterMap (fun a =>
    match a.href with
    | none => none
    | some href =>
      if href = [] then none
      else
        let title := pyStrip a.text
        let url := urljoin base_url href
        if keywords.any (fun kw => decide (pyLower kw <:+: pyLower (title ++ ' ' :: url))) then
          some ⟨title, url⟩
        else none)

/-- A URL resolver for the §8 scenarios: resolving a root-relative path
against a bare site root appends it. -/
def urljoinConcat (base_url path : Str) : Str := base_url ++ path

/-- The record of the §8 lexical-fallback scenario. -/
def cnRecord : Record :=
  { title := str "新规"
    url := str "https://ex.com/cn"
    source := str "https://ex.com"
    raw_text := str "稳定币 禁止 新规 2024-05-01 发布"
    clean_text := str "稳定币 禁止 新规 2024-05-01 发布"
    date := str "2024-05-01"
    embedding := none }

/-- A concrete fetch oracle: one entry page `"https://s/e"` linking to
one detail page `"https://s/d"`; everything else 404s. -/
def fetchW : Str → Except String Html := fun u =>
  if u = str "https://s/e" then
    Except.ok ⟨[⟨str "Web3 news", some (str "/d")⟩], []⟩
  else if u = str "https://s/d" then
    Except.ok ⟨[], str "Web3  2024-05-01"⟩
  else Except.error "404"

/-- The record the crawl over `fetchW` produces. -/
def recW : Record :=
  { title := str "Web3 news", url := str "https://s/d", source := str "https://s",
    raw_text := str "Web3  2024-05-01",
    clean_text := clean_text (str "Web3  2024-05-01"),
    date := extract_date (clean_text (str "Web3  2024-05-01")),
    embedding := none }

lemma findDate_none : ∀ l : Str, findDate l = none →
    ∀ i, dateMatch ((l.drop i).take 10) = false
  | [], _, i => by simp [dateMatch]
  | c :: cs, h, i => by
    rw [findDate] at h
    split at h
    · exact absurd h (by simp)
    · match i with
      | 0 => simpa using ‹¬ dateMatch ((c :: cs).take 10) = true›
      | i + 1 => exact findDate_none cs h i

lemma findDate_some : ∀ l m : Str, findDate l = some m →
    ∃ i, m = (l.drop i).take 10 ∧ dateMatch m = true ∧
      ∀ j, j < i → dateMatch ((l.drop j).take 10) = false
  | c :: cs, m, h => by
    rw [findDate] at h
    split at h
    · refine ⟨0, by simpa using h.symm, ?_, by omega⟩
      cases h; assumption
    · obtain ⟨i, hm, hmatch, hfirst⟩ := findDate_some cs m h
      refine ⟨i + 1, by simpa using hm, hmatch, ?_⟩
      intro j hj
      match j with
      | 0 => simpa using ‹¬ dateMatch ((c :: cs).take 10) = true›
      | j + 1 => exact hfirst j (by omega)

/-- C1 (amended): `extract_date` returns the 10-character window at the
first position of the input where the fixed-width date pattern matches —
with the month/day separator chosen independently of the year/month
separator — or the empty string when no position matches; every
non-empty result matches that pattern exactly. -/
theorem extract_date_first_match (l : Str) :
    (extract_date l = [] → ∀ i, dateMatch ((l.drop i).take 10) = false) ∧
    (extract_date l ≠ [] → dateMatch (extract_date l) = true ∧
      ∃ i, extract_date l = (l.drop i).take 10 ∧
        ∀ j, j < i → dateMatch ((l.drop j).take 10) = false) := by
  unfold extract_date
  cases h : findDate l with
  | none =>
    refine ⟨fun _ i => findDate_none l h i, fun hne => absurd rfl hne⟩
  | some m =>
    obtain ⟨i, hm, hmatch, hfirst⟩ := findDate_some l m h
    exact ⟨fun h0 => absurd hmatch (by simp at h0; simp [h0, dateMatch]),
      fun _ => ⟨hmatch, i, hm, hfirst⟩⟩

/-- Witness for C1: on `"Published 2023/01/15 in Hong Kong"` the result
is non-empty, matches the pattern, and is the earliest matching window. -/
theorem extract_date_first_match_witness :
    dateMatch (extract_date (str "Published 2023/01/15 in Hong Kong")) = true ∧
    ∃ i, extract_date (str "Published 2023/01/15 in Hong Kong") =
        ((str "Published 2023/01/15 in Hong Kong").drop i).take 10 ∧
      ∀ j, j < i →
        dateMatch (((str "Published 2023/01/15 in Hong Kong").drop j).take 10) = false :=
  (extract_date_first_match _).2 (by decide)

/-- Counterexample to C1 as stated: on `"2024-05/01"` the code returns
the non-empty string `"2024-05/01"`, whose two separators differ, while
the claim demands the same separator between year/month and month/day
(so, on this input, the empty string). -/
theorem extract_date_mixed_separators :
    extract_date (str "2024-05/01") = str "2024-05/01" ∧
    dateMatchSpec (extract_date (str "2024-05/01")) = false := by decide

/-- C5: the Link Filter returns, in anchor encounter order and without
deduplication, exactly the links for the anchors with a non-empty href
whose title and resolved URL, joined by a space and lowercased, contain
some lowercased keyword as a substring; moreover the §8 scenario with
keyword `"web3"` returns exactly the `"Web3 Policy Update"` link. -/
theorem extract_links_by_keywords_spec :
    (∀ (urljoin : Str → Str → Str) (anchors : List Anchor) (base_url : Str)
        (keywords : List Str),
      extract_links_by_keywords urljoin anchors base_url keywords =
        linkFilterSpec urljoin anchors base_url keywords) ∧
    extract_links_by_keywords urljoinConcat
        [⟨str "Web3 Policy Update", some (str "/a")⟩, ⟨str "Other News", some (str "/b")⟩]
        (str "https://ex.com") [str "web3"] =
      [⟨str "Web3 Policy Update", str "https://ex.com/a"⟩] := by
  constructor
  · intro urljoin anchors base_url keywords
    induction anchors with
    | nil => rfl
    | cons a rest ih =>
      rw [extract_links_by_keywords, linkFilterSpec, List.filterMap_cons]
      simp only [linkFilterSpec] at ih
      cases a.href with
      | none => exact ih
      | some href =>
        by_cases h : href = [] <;>
          simp only [h, if_true, if_false, ite_true, ite_false] <;>
          first
          | exact ih
          | (split <;> simp [ih])
  · decide

/-- C6: `cosine_similarity` never divides by zero and its guards are
exact: an empty operand gives `0.0`; a zero Euclidean norm on either
side gives `0.0`; only otherwise is `dot / (norm_a * norm_b)` computed,
and there the divisor is nonzero. -/
theorem cosine_similarity_guards (vec_a vec_b : List ℝ) :
    (vec_a = [] ∨ vec_b = [] → cosine_similarity vec_a vec_b = 0) ∧
    (vecNorm vec_a = 0 ∨ vecNorm vec_b = 0 → cosine_similarity vec_a vec_b = 0) ∧
    (vecNorm vec_a ≠ 0 → vecNorm vec_b ≠ 0 →
      vecNorm vec_a * vecNorm vec_b ≠ 0 ∧
      cosine_similarity vec_a vec_b =
        dotProd vec_a vec_b / (vecNorm vec_a * vecNorm vec_b)) := by
  refine ⟨fun h => by unfold cosine_similarity; rw [if_pos h], fun h => ?_, fun ha hb => ?_⟩
  · unfold cosine_similarity
    by_cases he : vec_a = [] ∨ vec_b = []
    · rw [if_pos he]
    · rw [if_neg he, if_pos h]
  · have hne : ¬ (vec_a = [] ∨ vec_b = []) := by
      rintro (rfl | rfl) <;> simp [vecNorm, sumSq] at ha hb
    refine ⟨mul_ne_zero ha hb, ?_⟩
    unfold cosine_similarity
    rw [if_neg hne, if_neg (by simp [ha, hb])]

/-- Witness for C6: the three guard cases at concrete vectors `[]`,
`[0]` and `[1]`. -/
theorem cosine_similarity_guards_witness :
    cosine_similarity [] [(1 : ℝ)] = 0 ∧
    cosine_similarity [(0 : ℝ)] [(1 : ℝ)] = 0 ∧
    (vecNorm [(1 : ℝ)] * vecNorm [(1 : ℝ)] ≠ 0 ∧
      cosine_similarity [(1 : ℝ)] [(1 : ℝ)] =
        dotProd [(1 : ℝ)] [(1 : ℝ)] / (vecNorm [(1 : ℝ)] * vecNorm [(1 : ℝ)])) :=
  ⟨(cosine_similarity_guards _ _).1 (Or.inl rfl),
   (cosine_similarity_guards _ _).2.1 (Or.inl (by simp [vecNorm, sumSq])),
   (cosine_similarity_guards _ _).2.2 (by simp [vecNorm, sumSq])
     (by simp [vecNorm, sumSq])⟩

lemma mem_fetchDetails {ε : Type} (fetch : Str → Except ε Html) (base_url : Str) :
    ∀ (links : List Link) (r : Record), r ∈ fetchDetails fetch base_url links →
      ∃ link ∈ links, ∃ page, fetch link.url = .ok page ∧
        r = { title := link.title, url := link.url, source := base_url,
              raw_text := page.text, clean_text := clean_text page.text,
              date := extract_date (clean_text page.text), embedding := none }
  | [], r => by intro h; simp [fetchDetails] at h
  | link :: rest, r => by
    rw [fetchDetails]
    cases hf : fetch link.url with
    | error e =>
      intro hr
      obtain ⟨l, hl, hpage⟩ := mem_fetchDetails fetch base_url rest r hr
      exact ⟨l, List.mem_cons_of_mem _ hl, hpage⟩
    | ok page =>
      intro hr
      rcases List.mem_cons.mp hr with hr | hr
      · exact ⟨link, List.mem_cons_self _ _, page, hf, hr⟩
      · obtain ⟨l, hl, hpage⟩ := mem_fetchDetails fetch base_url rest r hr
        exact ⟨l, List.mem_cons_of_mem _ hl, hpage⟩

/-- C4: no single fetch failure escapes `fetch_and_extract` or aborts
the crawl: a failed entry fetch skips exactly that entry path, a failed
detail fetch skips exactly that link, and when the sole entry page's
fetch fails the result is the empty record sequence. -/
theorem fetch_and_extract_failure_isolation :
    (∀ (ε : Type) (fetch : Str → Except ε Html) (urljoin : Str → Str → Str)
        (base_url path : Str) (rest : List Str) (keywords : List Str) (e : ε),
      fetch (urljoin base_url path) = .error e →
      fetch_and_extract fetch urljoin base_url (path :: rest) keywords =
        fetch_and_extract fetch urljoin base_url rest keywords) ∧
    (∀ (ε : Type) (fetch : Str → Except ε Html) (base_url : Str)
        (link : Link) (rest : List Link) (e : ε),
      fetch link.url = .error e →
      fetchDetails fetch base_url (link :: rest) = fetchDetails fetch base_url rest) ∧
    (∀ (ε : Type) (fetch : Str → Except ε Html) (urljoin : Str → Str → Str)
        (base_url path : Str) (keywords : List Str) (e : ε),
      fetch (urljoin base_url path) = .error e →
      fetch_and_extract fetch urljoin base_url [path] keywords = []) := by
  refine ⟨fun ε fetch urljoin base_url path rest keywords e h => ?_,
          fun ε fetch base_url link rest e h => ?_,
          fun ε fetch urljoin base_url path keywords e h => ?_⟩
  · rw [fetch_and_extract, h]
  · rw [fetchDetails, h]
  · rw [fetch_and_extract, h, fetch_and_extract]

/-- Witness for C4: a fetch oracle on which every request 404s; the
skip equations and the empty result hold at concrete inputs. -/
theorem fetch_and_extract_failure_isolation_witness :
    fetch_and_extract (fun _ => Except.error "404") urljoinConcat
        (str "https://ex.com") [str "/p1", str "/p2"] [str "web3"] =
      fetch_and_extract (fun _ => Except.error "404") urljoinConcat
        (str "https://ex.com") [str "/p2"] [str "web3"] ∧
    fetchDetails (fun _ => Except.error "404") (str "https://ex.com")
        [⟨str "t", str "https://ex.com/a"⟩] =
      fetchDetails (fun _ => Except.error "404") (str "https://ex.com") [] ∧
    fetch_and_extract (fun _ => Except.error "404") urljoinConcat
        (str "https://ex.com") [str "/p1"] [str "web3"] = [] :=
  ⟨fetch_and_extract_failure_isolation.1 String _ _ _ _ _ _ "404" rfl,
   fetch_and_extract_failure_isolation.2.1 String _ _ _ _ "404" rfl,
   fetch_and_extract_failure_isolation.2.2 String _ _ _ _ _ "404" rfl⟩

/-- C9: every record produced by `fetch_and_extract` comes from a
successful entry-page fetch and a successful detail-page fetch, and is
internally consistent: `source` is the base URL, `clean_text` is the
cleaned `raw_text`, `date` is extracted from `clean_text`, and no
`embedding` key is present yet. -/
theorem fetch_and_extract_record_invariants {ε : Type}
    (fetch : Str → Except ε Html) (urljoin : Str → Str → Str)
    (base_url : Str) (entry_paths : List Str) (keywords : List Str)
    (r : Record) :
    r ∈ fetch_and_extract fetch urljoin base_url entry_paths keywords →
      r.source = base_url ∧
      r.clean_text = clean_text r.raw_text ∧
      r.date = extract_date r.clean_text ∧
      r.embedding = none ∧
      ∃ path ∈ entry_paths, ∃ entry_page,
        fetch (urljoin base_url path) = .ok entry_page ∧
        ∃ link ∈ extract_links_by_keywords urljoin entry_page.anchors base_url keywords,
          r.title = link.title ∧ r.url = link.url ∧
          ∃ detail_page, fetch link.url = .ok detail_page ∧
            r.raw_text = detail_page.text := by
  induction entry_paths with
  | nil => intro h; simp [fetch_and_extract] at h
  | cons path rest ih =>
    intro h
    rw [fetch_and_extract] at h
    cases hf : fetch (urljoin base_url path) with
    | error e =>
      rw [hf] at h
      obtain ⟨hs, hc, hd, he, p, hp, rest_h⟩ := ih h
      exact ⟨hs, hc, hd, he, p, List.mem_cons_of_mem _ hp, rest_h⟩
    | ok page =>
      rw [hf] at h
      rcases List.mem_append.mp h with h | h
      · obtain ⟨link, hlink, dpage, hdp, rfl⟩ :=
          mem_fetchDetails fetch base_url _ r h
        exact ⟨rfl, rfl, rfl, rfl, path, List.mem_cons_self _ _, page, hf,
          link, hlink, rfl, rfl, dpage, hdp, rfl⟩
      · obtain ⟨hs, hc, hd, he, p, hp, rest_h⟩ := ih h
        exact ⟨hs, hc, hd, he, p, List.mem_cons_of_mem _ hp, rest_h⟩

/-- Witness for C9: the record produced by the one-entry, one-detail
crawl over `fetchW` satisfies every invariant. -/
theorem fetch_and_extract_record_invariants_witness :
    recW.source = str "https://s" ∧
    recW.clean_text = clean_text recW.raw_text ∧
    recW.date = extract_date recW.clean_text ∧
    recW.embedding = none ∧
    ∃ path ∈ [str "/e"], ∃ entry_page,
      fetchW (urljoinConcat (str "https://s") path) = .ok entry_page ∧
      ∃ link ∈ extract_links_by_keywords urljoinConcat entry_page.anchors
          (str "https://s") [str "web3"],
        recW.title = link.title ∧ recW.url = link.url ∧
        ∃ detail_page, fetchW link.url = .ok detail_page ∧
          recW.raw_text = detail_page.text :=
  fetch_and_extract_record_invariants fetchW urljoinConcat (str "https://s")
    [str "/e"] [str "web3"] recW (List.mem_singleton.mpr rfl)

lemma build_embeddings_eq_map {ε : Type} (embed : Str → Except ε (List ℝ)) :
    ∀ records, build_embeddings embed records = records.map (fun rec =>
      { rec with embedding := some (match embed rec.clean_text with
          | .ok v => v
          | .error _ => []) })
  | [] => rfl
  | rec :: rest => by
    rw [build_embeddings, List.map_cons, build_embeddings_eq_map embed rest]
    cases embed rec.clean_text <;> rfl

/-- C10: `build_embeddings` only adds the `embedding` key: the output is
the input list, in order and of the same length, with every other field
of every record unchanged, and with `embedding` now present on every
record — the embed result on success, the empty sequence on failure. -/
theorem build_embeddings_frame {ε : Type} (embed : Str → Except ε (List ℝ))
    (records : List Record) :
    build_embeddings embed records = records.map (fun rec =>
      { rec with embedding := some (match embed rec.clean_text with
          | .ok v => v
          | .error _ => []) }) :=
  build_embeddings_eq_map embed records

/-- C2 (amended): every record-level embedding failure is caught and
mapped to an empty embedding for that record, never aborting the batch:
`build_embeddings` completes on all records, and `search_with_jina`
returns normally whenever the query embedding succeeds, no matter which
record embeddings failed. (A failure of the query embedding itself,
however, propagates out of `search_with_jina`.) -/
theorem embedding_failures_isolated :
    (∀ (ε : Type) (embed : Str → Except ε (List ℝ)) (records : List Record),
      (build_embeddings embed records).length = records.length ∧
      ∀ r ∈ build_embeddings embed records,
        (∃ v, embed r.clean_text = .ok v ∧ r.embedding = some v) ∨
        (∃ e, embed r.clean_text = .error e ∧ r.embedding = some [])) ∧
    (∀ (ε : Type) (embed : Str → Except ε (List ℝ)) (records : List Record)
        (query : Str) (top_k : Int) (qv : List ℝ),
      embed query = .ok qv →
      ∃ out, search_with_jina embed records query top_k = .ok out) := by
  constructor
  · intro ε embed records
    rw [build_embeddings_eq_map]
    refine ⟨records.length_map _, ?_⟩
    intro r hr
    obtain ⟨rec, hrec, rfl⟩ := List.mem_map.mp hr
    cases h : embed rec.clean_text with
    | ok v => exact Or.inl ⟨v, rfl, by simp [h]⟩
    | error e => exact Or.inr ⟨e, rfl, by simp [h]⟩
  · intro ε embed records query top_k qv h
    unfold search_with_jina
    rw [h]
    exact ⟨_, rfl⟩

/-- Witness for C2: a provider failing on every record still yields a
full-length batch, and a successful query embedding yields a normal
search result. -/
theorem embedding_failures_isolated_witness :
    ((build_embeddings (fun _ => (Except.error "rate limit" : Except String (List ℝ)))
        [cnRecord]).length = 1 ∧
      ∀ r ∈ build_embeddings
          (fun _ => (Except.error "rate limit" : Except String (List ℝ))) [cnRecord],
        (∃ v, (Except.error "rate limit" : Except String (List ℝ)) = .ok v ∧
            r.embedding = some v) ∨
        (∃ e, (Except.error "rate limit" : Except String (List ℝ)) = .error e ∧
            r.embedding = some [])) ∧
    ∃ out, search_with_jina (fun _ => (Except.ok [(1 : ℝ)] : Except String (List ℝ)))
        [cnRecord] (str "禁止 稳定币") 5 = .ok out :=
  ⟨embedding_failures_isolated.1 String _ [cnRecord],
   embedding_failures_isolated.2 String _ [cnRecord] (str "禁止 稳定币") 5 [(1 : ℝ)] rfl⟩

/-- Counterexample to C2 as stated: when the query embedding call fails,
`search_with_jina` propagates the failure instead of recovering — the
unguarded `embed_with_jina(query, ...)` call raises. -/
theorem search_with_jina_query_failure :
    search_with_jina (fun _ => (Except.error "401 auth" : Except String (List ℝ)))
      [] (str "禁止 稳定币") 5 = .error "401 auth" := rfl

/-- C7: every element of the lexical fallback's output carries as score
the number of non-overlapping occurrences of the lowercased query as a
substring of that record's lowercased clean text (`str.count`). -/
theorem keyword_fallback_scores (records : List Record) (query : Str)
    (top_k : Int) (x : ScoredK) :
    x ∈ keyword_fallback records query top_k →
    x.score = pyCount (pyLower x.record.clean_text) (pyLower query) := by
  intro hx
  unfold keyword_fallback at hx
  have hx' : x ∈ sortDesc ScoredK.score
      (records.map (fun rec => ⟨rec, pyCount (pyLower rec.clean_text) (pyLower query)⟩)) := by
    unfold pyTake at hx
    split at hx <;> exact List.take_subset _ _ hx
  rw [sortDesc, List.mem_mergeSort] at hx'
  obtain ⟨rec, _, rfl⟩ := List.mem_map.mp hx'
  rfl

/-- Witness for C7: the §8 scenario — clean text
`"稳定币 禁止 新规 2024-05-01 发布"` scored against query
`"禁止 稳定币"` gives `0`, because the exact phrase does not occur as a
substring (the words are reordered). -/
theorem keyword_fallback_scores_witness :
    (⟨cnRecord, 0⟩ : ScoredK) ∈ keyword_fallback [cnRecord] (str "禁止 稳定币") 5 ∧
    (⟨cnRecord, 0⟩ : ScoredK).score =
      pyCount (pyLower (⟨cnRecord, 0⟩ : ScoredK).record.clean_text)
        (pyLower (str "禁止 稳定币")) := by
  have hm : (⟨cnRecord, 0⟩ : ScoredK) ∈ keyword_fallback [cnRecord] (str "禁止 稳定币") 5 := by
    have h0 : pyCount (pyLower cnRecord.clean_text) (pyLower (str "禁止 稳定币")) = 0 := by
      decide
    simp [keyword_fallback, sortDesc, pyTake, h0]
  exact ⟨hm, keyword_fallback_scores [cnRecord] (str "禁止 稳定币") 5 _ hm⟩

lemma desc_trans {α β : Type} [LinearOrder β] (key : α → β) (a b c : α)
    (h1 : decide (key b ≤ key a) = true) (h2 : decide (key c ≤ key b) = true) :
    decide (key c ≤ key a) = true := by
  simp only [decide_eq_true_eq] at *
  exact h2.trans h1

lemma desc_total {α β : Type} [LinearOrder β] (key : α → β) (a b : α) :
    (decide (key b ≤ key a) || decide (key a ≤ key b)) = true := by
  simpa using le_total (key b) (key a)

lemma sortDesc_perm {α β : Type} [LinearOrder β] (key : α → β) (l : List α) :
    List.Perm (sortDesc key l) l :=
  List.mergeSort_perm l _

lemma sortDesc_sorted {α β : Type} [LinearOrder β] (key : α → β) (l : List α) :
    (sortDesc key l).Pairwise (fun a b => key b ≤ key a) := by
  have h : (List.mergeSort l (fun a b => decide (key b ≤ key a))).Pairwise
      (fun a b => decide (key b ≤ key a) = true) :=
    List.sorted_mergeSort (desc_trans key) (desc_total key) l
  exact h.imp (fun hb => by simpa using hb)

lemma sortDesc_filter_tied {α β : Type} [LinearOrder β] (key : α → β)
    (l : List α) (p : α → Bool)
    (hp : ∀ x y, p x = true → p y = true → key x = key y) :
    (sortDesc key l).filter p = l.filter p := by
  have hpw : (l.filter p).Pairwise (fun a b => decide (key b ≤ key a) = true) := by
    refine List.pairwise_of_forall_mem_list ?_
    intro a ha b hb
    have := hp a b (List.of_mem_filter ha) (List.of_mem_filter hb)
    simp [this]
  have hsub : List.Sublist (l.filter p) (sortDesc key l) :=
    List.sublist_mergeSort (desc_trans key) (desc_total key) hpw (List.filter_sublist l)
  have hsub2 : List.Sublist (l.filter p) ((sortDesc key l).filter p) := by
    have h2 := hsub.filter p
    rwa [List.filter_filter, (by funext a; rw [Bool.and_self] :
      (fun a => p a && p a) = p)] at h2
  have hlen : ((sortDesc key l).filter p).length = (l.filter p).length :=
    ((sortDesc_perm key l).filter p).length_eq
  exact (hsub2.eq_of_length hlen.symm).symm

lemma ranked_shape_of {α β : Type} [LinearOrder β] (key : α → β)
    (scored : List α) (k : Int) (hk : 0 ≤ k) :
    (pyTake (sortDesc key scored) k).length = min k.toNat scored.length ∧
    (pyTake (sortDesc key scored) k).Pairwise (fun a b => key b ≤ key a) ∧
    ∃ s : List α, List.Perm s scored ∧ s.Pairwise (fun a b => key b ≤ key a) ∧
      (∀ p : α → Bool, (∀ x y, p x = true → p y = true → key x = key y) →
        s.filter p = scored.filter p) ∧
      pyTake (sortDesc key scored) k = s.take k.toNat := by
  have hpt : pyTake (sortDesc key scored) k = (sortDesc key scored).take k.toNat := by
    unfold pyTake
    rw [if_pos hk]
  refine ⟨?_, ?_, sortDesc key scored, sortDesc_perm key scored,
    sortDesc_sorted key scored,
    fun p hp => sortDesc_filter_tied key scored p hp, hpt⟩
  · rw [hpt, List.length_take, (sortDesc_perm key scored).length_eq]
  · rw [hpt]
    exact (sortDesc_sorted key scored).sublist (List.take_sublist _ _)

/-- C3 (amended): for every nonnegative `top_k`, both ranking strategies
return exactly `min(top_k, len(records))` scored records, sorted by
score non-increasing, obtained as the `top_k`-prefix of a stable
descending sort of the scored input: a permutation that is sorted and
preserves, for each score value, the original relative order of the
records carrying it (for the vector strategy, under a successful query
embedding). -/
theorem ranking_shape :
    (∀ (records : List Record) (query : Str) (top_k : Int), 0 ≤ top_k →
      (keyword_fallback records query top_k).length = min top_k.toNat records.length ∧
      (keyword_fallback records query top_k).Pairwise (fun a b => b.score ≤ a.score) ∧
      ∃ s : List ScoredK,
        List.Perm s (records.map (fun rec =>
          (⟨rec, pyCount (pyLower rec.clean_text) (pyLower query)⟩ : ScoredK))) ∧
        s.Pairwise (fun a b => b.score ≤ a.score) ∧
        (∀ v : Nat, s.filter (fun x => x.score == v) =
          (records.map (fun rec =>
            (⟨rec, pyCount (pyLower rec.clean_text) (pyLower query)⟩ : ScoredK))).filter
              (fun x => x.score == v)) ∧
        keyword_fallback records query top_k = s.take top_k.toNat) ∧
    (∀ (ε : Type) (embed : Str → Except ε (List ℝ)) (records : List Record)
        (query : Str) (top_k : Int) (qv : List ℝ),
      0 ≤ top_k → embed query = .ok qv →
      ∃ out, search_with_jina embed records query top_k = .ok out ∧
        out.length = min top_k.toNat records.length ∧
        out.Pairwise (fun a b => b.score ≤ a.score) ∧
        ∃ s : List ScoredR,
          List.Perm s (records.map (fun rec =>
            (⟨rec, cosine_similarity qv (rec.embedding.getD [])⟩ : ScoredR))) ∧
          s.Pairwise (fun a b => b.score ≤ a.score) ∧
          (∀ v : ℝ, s.filter (fun x => decide (x.score = v)) =
            (records.map (fun rec =>
              (⟨rec, cosine_similarity qv (rec.embedding.getD [])⟩ : ScoredR))).filter
                (fun x => decide (x.score = v))) ∧
          out = s.take top_k.toNat) := by
  constructor
  · intro records query top_k hk
    obtain ⟨hlen, hsorted, s, hperm, hs, hfilter, heq⟩ :=
      ranked_shape_of ScoredK.score
        (records.map (fun rec =>
          (⟨rec, pyCount (pyLower rec.clean_text) (pyLower query)⟩ : ScoredK)))
        top_k hk
    have hkf : keyword_fallback records query top_k =
        pyTake (sortDesc ScoredK.score
          (records.map (fun rec =>
            (⟨rec, pyCount (pyLower rec.clean_text) (pyLower query)⟩ : ScoredK))))
          top_k := rfl
    rw [hkf]
    refine ⟨by rw [hlen, List.length_map], hsorted, s, hperm, hs, ?_, heq⟩
    intro v
    exact hfilter _ (fun x y hx hy => by
      simp only [beq_iff_eq] at hx hy
      rw [hx, hy])
  · intro ε embed records query top_k qv hk h
    obtain ⟨hlen, hsorted, s, hperm, hs, hfilter, heq⟩ :=
      ranked_shape_of ScoredR.score
        (records.map (fun rec =>
          (⟨rec, cosine_similarity qv (rec.embedding.getD [])⟩ : ScoredR)))
        top_k hk
    refine ⟨_, ?_, by rw [hlen, List.length_map], hsorted, s, hperm, hs, ?_, heq⟩
    · unfold search_with_jina
      rw [h]
    · intro v
      exact hfilter _ (fun x y hx hy => by
        rw [of_decide_eq_true hx, of_decide_eq_true hy])

/-- Counterexample to C3 as stated: for the (perfectly legal Python)
integer `top_k = -1`, slicing `scored[:top_k]` drops the last element,
so one record yields an empty result — not a sequence of length
`min(top_k, len(records)) = -1`. -/
theorem keyword_fallback_negative_topk :
    ¬ (((keyword_fallback [cnRecord] (str "q") (-1)).length : Int) =
        min (-1 : Int) (([cnRecord] : List Record).length : Int)) := by
  have h : keyword_fallback [cnRecord] (str "q") (-1) = [] := by
    simp [keyword_fallback, sortDesc, pyTake]
  rw [h]
  decide

/-- Witness for C3: both strategies at `top_k = 5` over one record, the
vector strategy under an embedding oracle answering `[1]`. -/
theorem ranking_shape_witness :
    ((keyword_fallback [cnRecord] (str "q") 5).length =
        min (5 : Int).toNat ([cnRecord] : List Record).length ∧
      (keyword_fallback [cnRecord] (str "q") 5).Pairwise (fun a b => b.score ≤ a.score) ∧
      ∃ s : List ScoredK,
        List.Perm s ([cnRecord].map (fun rec =>
          (⟨rec, pyCount (pyLower rec.clean_text) (pyLower (str "q"))⟩ : ScoredK))) ∧
        s.Pairwise (fun a b => b.score ≤ a.score) ∧
        (∀ v : Nat, s.filter (fun x => x.score == v) =
          ([cnRecord].map (fun rec =>
            (⟨rec, pyCount (pyLower rec.clean_text) (pyLower (str "q"))⟩ : ScoredK))).filter
              (fun x => x.score == v)) ∧
        keyword_fallback [cnRecord] (str "q") 5 = s.take (5 : Int).toNat) ∧
    (∃ out, search_with_jina
          (fun _ => (Except.ok [(1 : ℝ)] : Except String (List ℝ)))
          [cnRecord] (str "q") 5 = .ok out ∧
        out.length = min (5 : Int).toNat ([cnRecord] : List Record).length ∧
        out.Pairwise (fun a b => b.score ≤ a.score) ∧
        ∃ s : List ScoredR,
          List.Perm s ([cnRecord].map (fun rec =>
            (⟨rec, cosine_similarity [(1 : ℝ)] (rec.embedding.getD [])⟩ : ScoredR))) ∧
          s.Pairwise (fun a b => b.score ≤ a.score) ∧
          (∀ v : ℝ, s.filter (fun x => decide (x.score = v)) =
            ([cnRecord].map (fun rec =>
              (⟨rec, cosine_similarity [(1 : ℝ)] (rec.embedding.getD [])⟩ : ScoredR))).filter
                (fun x => decide (x.score = v))) ∧
          out = s.take (5 : Int).toNat) :=
  ⟨ranking_shape.1 [cnRecord] (str "q") 5 (by decide),
   ranking_shape.2 String _ [cnRecord] (str "q") 5 [(1 : ℝ)] (by decide) rfl⟩

lemma collapseWS_cons : ∀ (cs : Str) (c : Char),
    ∃ t, collapseWS (c :: cs) = (if pyIsSpace c then ' ' else c) :: t := by
  intro cs
  induction cs with
  | nil =>
    intro c
    cases h : pyIsSpace c <;> exact ⟨[], by simp [collapseWS, h]⟩
  | cons d rest ih =>
    intro c
    obtain ⟨t, ht⟩ := ih d
    cases h1 : pyIsSpace c <;> cases h2 : pyIsSpace d <;>
      simp only [collapseWS, h1, h2, if_true, if_false, ite_true, ite_false,
        Bool.false_eq_true, Bool.true_eq_false]
    · exact ⟨collapseWS (d :: rest), rfl⟩
    · exact ⟨collapseWS (d :: rest), rfl⟩
    · exact ⟨collapseWS (d :: rest), rfl⟩
    · rw [ht, if_pos h2]
      exact ⟨t, rfl⟩


lemma collapseWS_noBad : ∀ l : Str, ∀ c ∈ collapseWS l, pyIsSpace c = true → c = ' ' := by
  intro l
  induction l with
  | nil => intro c hc; simp [collapseWS] at hc
  | cons a cs ih =>
    cases cs with
    | nil =>
      intro c hc hs
      cases h : pyIsSpace a <;> rw [collapseWS] at hc <;> rw [h] at hc <;>
        simp at hc <;> rw [hc]
      rw [hc, h] at hs
      cases hs
    | cons d rest =>
      intro c hc hs
      cases h1 : pyIsSpace a <;> cases h2 : pyIsSpace d <;>
        rw [collapseWS] at hc <;> rw [h1] at hc <;> simp only [h2] at hc <;>
        simp at hc
      case false.false | false.true =>
        rcases hc with rfl | hc
        · rw [hs] at h1; cases h1
        · exact ih c hc hs
      case true.false =>
        rcases hc with rfl | hc
        · rfl
        · exact ih c hc hs
      case true.true => exact ih c hc hs


lemma collapseWS_chain : ∀ l : Str,
    (collapseWS l).Chain' (fun a b => ¬ (pyIsSpace a = true ∧ pyIsSpace b = true)) := by
  intro l
  induction l with
  | nil => simp [collapseWS]
  | cons a cs ih =>
    cases cs with
    | nil => cases h : pyIsSpace a <;> simp [collapseWS, h]
    | cons d rest =>
      obtain ⟨t, ht⟩ := collapseWS_cons rest d
      cases h1 : pyIsSpace a <;> cases h2 : pyIsSpace d <;>
        simp only [collapseWS, h1, h2, if_true, if_false, ite_true, ite_false,
          Bool.false_eq_true, Bool.true_eq_false]
      case false.false =>
        rw [ht, if_neg (by simp [h2])] at ih ⊢
        exact List.chain'_cons.mpr ⟨fun hcon => (by rw [hcon.2] at h2; cases h2), ih⟩
      case false.true =>
        rw [ht, if_pos (by simp [h2])] at ih ⊢
        exact List.chain'_cons.mpr ⟨fun hcon => (by rw [hcon.1] at h1; cases h1), ih⟩
      case true.false =>
        rw [ht, if_neg (by simp [h2])] at ih ⊢
        exact List.chain'_cons.mpr ⟨fun hcon => (by rw [hcon.2] at h2; cases h2), ih⟩
      case true.true => exact ih

lemma collapseWS_of_normal : ∀ l : Str,
    (∀ c ∈ l, pyIsSpace c = true → c = ' ') →
    l.Chain' (fun a b => ¬ (pyIsSpace a = true ∧ pyIsSpace b = true)) →
    collapseWS l = l := by
  intro l
  induction l with
  | nil => intro _ _; rfl
  | cons a cs ih =>
    cases cs with
    | nil =>
      intro hbad _
      cases h : pyIsSpace a
      · simp [collapseWS, h]
      · have := hbad a (by simp) h
        simp [collapseWS, h, this]
    | cons d rest =>
      intro hbad hchain
      have hchain' := List.chain'_cons.mp hchain
      cases h1 : pyIsSpace a
      · rw [collapseWS, h1]
        simp only [Bool.false_eq_true, if_false, ite_false]
        rw [ih (fun c hc => hbad c (List.mem_cons_of_mem _ hc)) hchain'.2]
      · have hd : pyIsSpace d = false := by
          cases hdt : pyIsSpace d
          · rfl
          · exact absurd ⟨h1, hdt⟩ hchain'.1
        have ha : a = ' ' := hbad a (by simp) h1
        rw [collapseWS, h1, hd]
        simp only [Bool.false_eq_true, Bool.true_eq_false, if_false, if_true,
          ite_false, ite_true]
        rw [ih (fun c hc => hbad c (List.mem_cons_of_mem _ hc)) hchain'.2, ha]


lemma dropWhile_dropWhile (p : Char → Bool) : ∀ l : Str,
    List.dropWhile p (List.dropWhile p l) = List.dropWhile p l := by
  intro l
  induction l with
  | nil => rfl
  | cons c cs ih =>
    cases h : p c
    · rw [List.dropWhile_cons, if_neg (by simp [h]), List.dropWhile_cons,
        if_neg (by simp [h])]
    · rw [List.dropWhile_cons, if_pos (by simp [h])]
      exact ih

lemma head_dropWhile_not (p : Char → Bool) : ∀ (l : Str) (c : Char) (t : Str),
    List.dropWhile p l = c :: t → p c = false := by
  intro l
  induction l with
  | nil => intro c t h; cases h
  | cons a cs ih =>
    intro c t h
    cases ha : p a
    · rw [List.dropWhile_cons, if_neg (by simp [ha])] at h
      cases h
      exact ha
    · rw [List.dropWhile_cons, if_pos (by simp [ha])] at h
      exact ih c t h

lemma getLast?_dropWhile (p : Char → Bool) : ∀ l : Str,
    List.dropWhile p l ≠ [] →
    (List.dropWhile p l).getLast? = l.getLast? := by
  intro l
  induction l with
  | nil => intro h; cases h rfl
  | cons a cs ih =>
    intro hne
    cases ha : p a
    · rw [List.dropWhile_cons, if_neg (by simp [ha])]
    · rw [List.dropWhile_cons, if_pos (by simp [ha])] at hne ⊢
      cases cs with
      | nil => cases hne rfl
      | cons d ds =>
        rw [ih hne, List.getLast?_cons_cons]

lemma pyStrip_idem : ∀ l : Str, pyStrip (pyStrip l) = pyStrip l := by
  intro l
  have claimA : List.dropWhile pyIsSpace (pyStrip l) = pyStrip l := by
    unfold pyStrip
    cases hw : List.dropWhile pyIsSpace (List.dropWhile pyIsSpace l).reverse with
    | nil => simp [hw]
    | cons a t =>
      have hwne : List.dropWhile pyIsSpace (List.dropWhile pyIsSpace l).reverse ≠ [] := by
        rw [hw]; simp
      have hyne : List.dropWhile pyIsSpace l ≠ [] := by
        intro hy
        rw [hy] at hwne
        simp at hwne
      obtain ⟨c, t', hy⟩ : ∃ c t', List.dropWhile pyIsSpace l = c :: t' := by
        cases hyy : List.dropWhile pyIsSpace l with
        | nil => cases hyne hyy
        | cons c t' => exact ⟨c, t', rfl⟩
      have hpc : pyIsSpace c = false := head_dropWhile_not pyIsSpace l c t' hy
      have hhead : (List.dropWhile pyIsSpace (List.dropWhile pyIsSpace l).reverse).reverse.head? =
          some c := by
        rw [List.head?_reverse, getLast?_dropWhile pyIsSpace _ hwne,
          List.getLast?_reverse, hy]
        rfl
      rw [hw] at hhead
      obtain ⟨r, hr⟩ : ∃ r, (a :: t).reverse = c :: r := by
        cases hrr : (a :: t).reverse with
        | nil => rw [hrr] at hhead; cases hhead
        | cons x r =>
          rw [hrr] at hhead
          cases hhead
          exact ⟨r, rfl⟩
      rw [hr, List.dropWhile_cons, if_neg (by simp [hpc])]
  show (((pyStrip l).dropWhile pyIsSpace).reverse.dropWhile pyIsSpace).reverse = pyStrip l
  rw [claimA]
  have h2 : (pyStrip l).reverse =
      List.dropWhile pyIsSpace (List.dropWhile pyIsSpace l).reverse := by
    show ((List.dropWhile pyIsSpace (List.dropWhile pyIsSpace l).reverse).reverse).reverse = _
    rw [List.reverse_reverse]
  rw [h2, dropWhile_dropWhile]
  rfl


lemma mem_pyStrip : ∀ (l : Str) (c : Char), c ∈ pyStrip l → c ∈ l := by
  intro l c hc
  unfold pyStrip at hc
  rw [List.mem_reverse] at hc
  have hc2 := (List.dropWhile_sublist pyIsSpace).subset hc
  rw [List.mem_reverse] at hc2
  exact (List.dropWhile_sublist pyIsSpace).subset hc2

lemma chain'_dropWhile {R : Char → Char → Prop} (p : Char → Bool) :
    ∀ l : Str, l.Chain' R → (l.dropWhile p).Chain' R := by
  intro l
  induction l with
  | nil => intro h; exact h
  | cons c cs ih =>
    intro h
    cases hc : p c
    · rwa [List.dropWhile_cons, if_neg (by simp [hc])]
    · rw [List.dropWhile_cons, if_pos (by simp [hc])]
      exact ih (List.chain'_cons'.mp h).2

lemma chain'_pyStrip (l : Str)
    (h : l.Chain' (fun a b => ¬ (pyIsSpace a = true ∧ pyIsSpace b = true))) :
    (pyStrip l).Chain' (fun a b => ¬ (pyIsSpace a = true ∧ pyIsSpace b = true)) := by
  have h1 := chain'_dropWhile pyIsSpace l h
  have h2 : (l.dropWhile pyIsSpace).Chain'
      (flip (fun a b => ¬ (pyIsSpace a = true ∧ pyIsSpace b = true))) :=
    h1.imp (fun a b hr hand => hr ⟨hand.2, hand.1⟩)
  have h3 := List.chain'_reverse.mpr h2
  have h4 := chain'_dropWhile pyIsSpace _ h3
  have h5 : ((l.dropWhile pyIsSpace).reverse.dropWhile pyIsSpace).Chain'
      (flip (fun a b => ¬ (pyIsSpace a = true ∧ pyIsSpace b = true))) :=
    h4.imp (fun a b hr hand => hr ⟨hand.2, hand.1⟩)
  exact List.chain'_reverse.mpr h5

/-- C8: `clean_text` is idempotent. -/
theorem clean_text_idempotent (s : Str) :
    clean_text (clean_text s) = clean_text s := by
  show pyStrip (collapseWS (pyStrip (collapseWS s))) = pyStrip (collapseWS s)
  rw [collapseWS_of_normal (pyStrip (collapseWS s))
      (fun c hc => collapseWS_noBad s c (mem_pyStrip _ c hc))
      (chain'_pyStrip _ (collapseWS_chain s))]
  exact pyStrip_idem _

end RegAgent
